import Mathlib

/-!
Shallow embedding of the quote-retrieval, caching and aggregation core of
`src/app.py` (a Flask portfolio dashboard), together with theorems settling
the specification claims about it.

Modelling conventions:
* Python floats are modelled as exact rationals (`ℚ`); none of the verified
  properties depend on floating-point rounding.
* `time.time()` is an explicit `now : ℚ` parameter; within one call of
  `get_price` (resp. one batch request) the clock is modelled as constant.
* `datetime.utcnow().isoformat()` strings and pandas-timestamp ISO strings are
  identified with the UTC instants they denote (`Int`); `isoformat` is
  injective on instants, so nothing is lost for the claims at stake.
* Python dicts keyed by ticker strings are association lists with in-place
  overwrite (`dictSet`), which preserves Python's key-uniqueness and
  insertion-order semantics.
* The upstream provider `yfinance` is an oracle (`Upstream`): a `history`
  query either raises or returns a (possibly empty) series of rows, and a
  `fast_info` access either raises or yields an optional last price (the
  `.ok none` case covers `last_price is None`).  Calls made to the oracle are
  collected in an explicit query log so that "did not query tier X" claims are
  expressible.
* Raised Python exceptions are `Except.error`; a propagated exception carries
  no useful payload for the claims, so it is a `String`.
-/

/-- A pandas timestamp as found on a history row: either timezone-aware
(identified with its UTC instant; `tz_convert(utc)` preserves the instant) or
naive (`tz_localize(utc)` stamps the carried value as UTC). The code's
`hasattr(ts, "tz_convert")` test distinguishes exactly these two cases. -/
inductive PdTimestamp where
  | aware (utc : Int)
  | naive (v : Int)
deriving DecidableEq, Repr

/-- Model of `ts.tz_convert(timezone.utc) if hasattr(ts, "tz_convert") else
ts.tz_localize(timezone.utc)`, then `.isoformat()` — the resulting ISO string
identified with its UTC instant. -/
def toUtcIso : PdTimestamp → Int
  | .aware u => u
  | .naive v => v

/-- One row of a history DataFrame: its `Close` column and its index label
(`last.name`), a timestamp. -/
structure Obs where
  close : ℚ
  name : PdTimestamp
deriving DecidableEq, Repr

/-- Outcome of `yf.Ticker(t).history(period=..., interval=...)`: the call
raises, or returns a series of rows.  `series []` covers both a `None` result
and an empty DataFrame (the code treats them identically). -/
inductive HistOutcome where
  | raise (e : String)
  | series (rows : List Obs)
deriving DecidableEq, Repr

/-- Outcome of evaluating `float(info.last_price) if getattr(info,
"last_price", None) is not None else None` on `yf.Ticker(t).fast_info`:
the access raises, or yields an optional converted price. -/
inductive FastOutcome where
  | raise (e : String)
  | ok (lastPrice : Option ℚ)
deriving DecidableEq, Repr

/-- The upstream quote provider, as the oracle observed by the code. -/
structure Upstream where
  history : String → String → String → HistOutcome
  fastInfo : String → FastOutcome

/-- One upstream query, for the call log. -/
inductive Query where
  | hist (ticker period interval : String)
  | fast (ticker : String)
deriving DecidableEq, Repr

/-! ## Python dict as association list -/

/-- Lookup `d.get(k)` / `d[k]`. -/
def dictGet {α : Type} : List (String × α) → String → Option α
  | [], _ => none
  | (k', v) :: rest, k => if k' = k then some v else dictGet rest k

/-- Assignment `d[k] = v`: overwrite in place if present, else append (Python dict
insertion-order semantics). -/
def dictSet {α : Type} : List (String × α) → String → α → List (String × α)
  | [], k, v => [(k, v)]
  | (k', v') :: rest, k, v =>
      if k' = k then (k', v) :: rest else (k', v') :: dictSet rest k v

/-! ## Quote cache (`_CACHE`, `_cache_get`, `_cache_put`) -/

/-- One `_CACHE` entry: `{"p": price, "i": interval, "ts": iso, "t": time}`.
Entries are always 4-key dicts, hence truthy, so Python's `if c` test on an
entry is exactly "an entry was found". -/
structure CacheEntry where
  p : Option ℚ
  i : Option String
  ts : Option Int
  t : ℚ
deriving DecidableEq, Repr

abbrev Cache := List (String × CacheEntry)

/-- The constant `_CACHE_TTL = 10  # seconds`. -/
def CACHE_TTL : ℚ := 10

/-- Model of `_cache_get(ticker)`: the stored entry if present and younger than TTL,
else `None`.  A pure read: the cache is not modified (the source function
contains no assignment to `_CACHE`). -/
def cache_get (cache : Cache) (ticker : String) (now : ℚ) : Option CacheEntry :=
  match dictGet cache ticker with
  | some c => if now - c.t < CACHE_TTL then some c else none
  | none => none

/-- Model of `_cache_put(ticker, price, interval, iso)`: unconditional overwrite,
stamped with the current time. -/
def cache_put (cache : Cache) (ticker : String) (p : Option ℚ)
    (i : Option String) (ts : Option Int) (now : ℚ) : Cache :=
  dictSet cache ticker ⟨p, i, ts, now⟩

/-! ## Tiered fetcher (`_hist_try` and the tier loop of `get_price`) -/

/-- Model of `_hist_try(ticker, period, interval)`: raise propagates; a non-empty
series yields the last row's close, the interval label, and the last row's
timestamp normalised to UTC; an empty (or `None`) series yields
`(None, None, None)`. -/
def hist_try (up : Upstream) (ticker period interval : String) :
    Except String (Option ℚ × Option String × Option Int) :=
  match up.history ticker period interval with
  | .raise e => .error e
  | .series rows =>
    match rows.getLast? with
    | some last => .ok (some last.close, some interval, some (toUtcIso last.name))
    | none => .ok (none, none, none)

/-- The tier list of `get_price`, most granular first. -/
def TIERS : List (String × String) := [("1d", "1m"), ("5d", "1h"), ("1mo", "1d")]

/-- Result of running the historical-tier loop of `get_price`. -/
inductive TierResult where
  | raised (e : String) (log : List Query)
  | found (p : ℚ) (i : Option String) (ts : Option Int) (log : List Query)
  | exhausted (log : List Query)
deriving DecidableEq, Repr

/-- The `for period, interval in [...]` loop of `get_price`: call `_hist_try`
per tier; a raised exception propagates immediately; the first tier with a
non-`None` price wins; otherwise fall through.  The log records the history
queries actually issued, in order. -/
def tier_loop (up : Upstream) (ticker : String) :
    List (String × String) → TierResult
  | [] => .exhausted []
  | (period, interval) :: rest =>
    match hist_try up ticker period interval with
    | .error e => .raised e [Query.hist ticker period interval]
    | .ok (some p, i, ts) => .found p i ts [Query.hist ticker period interval]
    | .ok (none, _, _) =>
      match tier_loop up ticker rest with
      | .raised e log => .raised e (Query.hist ticker period interval :: log)
      | .found p i ts log => .found p i ts (Query.hist ticker period interval :: log)
      | .exhausted log => .exhausted (Query.hist ticker period interval :: log)

/-- Model of `get_price(ticker)`: cache hit returns the cached fields verbatim with no
upstream query and no cache write; otherwise the tier loop runs, then the
`fast_info` last resort (whose exceptions alone are caught by the
`try/except`), then the no-data result; every non-exceptional outcome is
cached before returning.  Returns (outcome, new cache, upstream query log);
`Except.error` is an exception propagating out of `get_price`. -/
def get_price (up : Upstream) (cache : Cache) (ticker : String)
    (now : ℚ) (nowUtc : Int) :
    Except String (Option ℚ × Option String × Option Int) × Cache × List Query :=
  match cache_get cache ticker now with
  | some c => (.ok (c.p, c.i, c.ts), cache, [])
  | none =>
    match tier_loop up ticker TIERS with
    | .raised e log => (.error e, cache, log)
    | .found p i ts log =>
      (.ok (some p, i, ts), cache_put cache ticker (some p) i ts now, log)
    | .exhausted log =>
      match up.fastInfo ticker with
      | .ok (some p) =>
        (.ok (some p, some "fast_info", some nowUtc),
         cache_put cache ticker (some p) (some "fast_info") (some nowUtc) now,
         log ++ [Query.fast ticker])
      | .ok none =>
        (.ok (none, none, none), cache_put cache ticker none none none now,
         log ++ [Query.fast ticker])
      | .raise _ =>
        (.ok (none, none, none), cache_put cache ticker none none none now,
         log ++ [Query.fast ticker])

/-! ## Portfolio configuration

JSON-optional fields with code-side defaults (`pf.get("name", "Portfolio")`,
`pf.get("currency", "USD")`, `float(h.get("shares", 0) or 0)`) are modelled
with the default already applied; `h.get("ticker")`, which has no default and
may be absent, stays an `Option`.  None of the claims depend on the defaulting
itself. -/

structure Holding where
  ticker : Option String
  shares : ℚ
  avg_cost : ℚ
deriving DecidableEq, Repr

structure Portfolio where
  name : String
  currency : String
  holdings : List Holding
deriving DecidableEq, Repr

/-- The ticker-enumeration loop shared by `api_quote` (no-override branch) and
`api_portfolios`: first-occurrence order across all portfolios' holdings,
skipping blank/absent tickers (`if t and t not in tickers`). -/
def add_ticker (acc : List String) (h : Holding) : List String :=
  match h.ticker with
  | some t => if t ≠ "" ∧ t ∉ acc then acc ++ [t] else acc
  | none => acc

def enum_tickers (pfs : List Portfolio) : List String :=
  pfs.foldl (fun acc pf => pf.holdings.foldl add_ticker acc) []

/-- Python `str.split(",")` over the character list: split at every comma,
keeping empty segments (`"a,,b".split(",") == ["a", "", "b"]`). -/
def splitCommas : List Char → List Char → List (List Char)
  | [], cur => [cur.reverse]
  | c :: rest, cur =>
    if c = ',' then cur.reverse :: splitCommas rest []
    else splitCommas rest (c :: cur)

/-- ASCII whitespace as removed by Python `str.strip()` (the full Unicode
whitespace class is irrelevant to comma-separated tickers). -/
def isPySpace (c : Char) : Bool :=
  c == ' ' || c == '\t' || c == '\n' || c == '\r'

def dropLeadingSpace : List Char → List Char
  | [] => []
  | c :: rest => if isPySpace c then dropLeadingSpace rest else c :: rest

/-- Python `str.strip()`: drop leading and trailing whitespace. -/
def pyStrip (s : String) : String :=
  String.mk ((dropLeadingSpace ((dropLeadingSpace s.data).reverse)).reverse)

/-- Model of `[t.strip() for t in tickers_arg.split(",") if t.strip()]` — note: no
de-duplication on this branch (an empty string is falsy, hence the
non-emptiness filter). -/
def parse_override (s : String) : List String :=
  ((splitCommas s.data []).map fun cs => pyStrip (String.mk cs)).filter (· ≠ "")

/-! ## `/api/quote` -/

/-- One element of the `/api/quote` response list. -/
inductive QuoteRow where
  | errRow (ticker : String)
  | okRow (ticker : String) (price : ℚ) (interval : Option String) (ts : Option Int)
deriving DecidableEq, Repr

def QuoteRow.tickerOf : QuoteRow → String
  | .errRow t => t
  | .okRow t _ _ _ => t

/-- The `for t in tickers` loop of `api_quote`, threading the cache.  An
exception escaping `get_price` is caught by the route's outer `try/except`
and becomes the 500 response, modelled as `Except.error`. -/
def quote_loop (up : Upstream) (nowUtc : Int) :
    List String → Cache → ℚ →
    Except String (List QuoteRow) × Cache × List Query
  | [], cache, _ => (.ok [], cache, [])
  | t :: rest, cache, now =>
    match get_price up cache t now nowUtc with
    | (.error e, cache1, log) => (.error e, cache1, log)
    | (.ok (none, _, _), cache1, log) =>
      match quote_loop up nowUtc rest cache1 now with
      | (res, cache2, log2) => (res.map (QuoteRow.errRow t :: ·), cache2, log ++ log2)
    | (.ok (some p, i, ts), cache1, log) =>
      match quote_loop up nowUtc rest cache1 now with
      | (res, cache2, log2) => (res.map (QuoteRow.okRow t p i ts :: ·), cache2, log ++ log2)

/-- The ticker list `api_quote` iterates over: the split-and-stripped
override argument when it is truthy (present and non-empty), else the
portfolio-derived enumeration. -/
def apiTickers (override : Option String) (config : List Portfolio) : List String :=
  match override with
  | some s => if s = "" then enum_tickers config else parse_override s
  | none => enum_tickers config

/-- Route `/api/quote`: an empty ticker list short-circuits to an empty (200)
response; otherwise the tickers are quoted in order. -/
def api_quote (up : Upstream) (cache : Cache) (override : Option String)
    (config : List Portfolio) (now : ℚ) (nowUtc : Int) :
    Except String (List QuoteRow) × Cache × List Query :=
  if apiTickers override config = [] then (.ok [], cache, [])
  else quote_loop up nowUtc (apiTickers override config) cache now

/-! ## `/api/portfolios` -/

/-- One value of the `quotes` prefetch dict:
`{"price": p, "interval": i, "time_utc": ts}`. -/
structure QuoteVal where
  price : Option ℚ
  interval : Option String
  time_utc : Option Int
deriving DecidableEq, Repr

/-- The prefetch loop `for t in all_tickers: quotes[t] = ...`. -/
def prefetch (up : Upstream) (nowUtc : Int) :
    List String → List (String × QuoteVal) → Cache → ℚ →
    Except String (List (String × QuoteVal)) × Cache × List Query
  | [], quotes, cache, _ => (.ok quotes, cache, [])
  | t :: rest, quotes, cache, now =>
    match get_price up cache t now nowUtc with
    | (.error e, cache1, log) => (.error e, cache1, log)
    | (.ok (p, i, ts), cache1, log) =>
      match prefetch up nowUtc rest (dictSet quotes t ⟨p, i, ts⟩) cache1 now with
      | (res, cache2, log2) => (res, cache2, log ++ log2)

/-- Model of `q = quotes.get(ticker, {})` (with `quotes.get(None, {}) = {}`, since all
keys are strings): missing entries give all-`None` fields. -/
def resolvedQuote (quotes : List (String × QuoteVal)) (tk : Option String) : QuoteVal :=
  match tk with
  | some t => (dictGet quotes t).getD ⟨none, none, none⟩
  | none => ⟨none, none, none⟩

/-- One row of a portfolio's `holdings` output. -/
structure HoldingOut where
  ticker : Option String
  shares : ℚ
  avg_cost : ℚ
  price : Option ℚ
  market_value : Option ℚ
  pl : Option ℚ
  pl_pct : Option ℚ
  interval : Option String
  time_utc : Option Int
deriving DecidableEq, Repr

/-- The per-holding fields computed by the body of the `for h in holdings`
loop of `api_portfolios`: `position_value = shares * price` when the price
resolved, else `None`; `pl`/`pl_pct` only when it resolved, `pl_pct` further
guarded by `position_cost > 0`. -/
def build_row (quotes : List (String × QuoteVal)) (h : Holding) : HoldingOut :=
  let q := resolvedQuote quotes h.ticker
  let position_cost := h.shares * h.avg_cost
  match q.price with
  | some p =>
    { ticker := h.ticker, shares := h.shares, avg_cost := h.avg_cost,
      price := some p, market_value := some (h.shares * p),
      pl := some (h.shares * p - position_cost),
      pl_pct := if 0 < position_cost
        then some ((h.shares * p - position_cost) / position_cost * 100) else none,
      interval := q.interval, time_utc := q.time_utc }
  | none =>
    { ticker := h.ticker, shares := h.shares, avg_cost := h.avg_cost,
      price := none, market_value := none, pl := none, pl_pct := none,
      interval := q.interval, time_utc := q.time_utc }

/-- The holdings loop, accumulating the output rows and the running
`total_cost`/`total_value`; a holding contributes to the totals exactly when
its `position_value` is not `None` (the row's `market_value` field). -/
def pf_loop (quotes : List (String × QuoteVal)) :
    List Holding → List HoldingOut × ℚ × ℚ → List HoldingOut × ℚ × ℚ
  | [], acc => acc
  | h :: rest, (outs, tc, tv) =>
    let row := build_row quotes h
    match row.market_value with
    | some pv => pf_loop quotes rest (outs ++ [row], tc + h.shares * h.avg_cost, tv + pv)
    | none => pf_loop quotes rest (outs ++ [row], tc, tv)

/-- The portfolio-totals epilogue: `(pl, pl_pct)` from
`(total_cost, total_value)`. -/
def totals_calc (tc tv : ℚ) : ℚ × Option ℚ :=
  if tc = 0 ∧ tv = 0 then (0, none)
  else (tv - tc, if 0 < tc then some ((tv - tc) / tc * 100) else none)

structure Totals where
  cost : ℚ
  value : ℚ
  pl : ℚ
  pl_pct : Option ℚ
deriving DecidableEq, Repr

structure PortfolioOut where
  name : String
  currency : String
  holdings : List HoldingOut
  totals : Totals
  last_updated_utc : Int
deriving DecidableEq, Repr

/-- The per-portfolio body of `api_portfolios`, given the prefetched quotes. -/
def build_portfolio (quotes : List (String × QuoteVal)) (nowUtc : Int)
    (pf : Portfolio) : PortfolioOut :=
  let r := pf_loop quotes pf.holdings ([], 0, 0)
  let t := totals_calc r.2.1 r.2.2
  { name := pf.name, currency := pf.currency, holdings := r.1,
    totals := { cost := r.2.1, value := r.2.2, pl := t.1, pl_pct := t.2 },
    last_updated_utc := nowUtc }

/-- Route `/api/portfolios`: empty configuration short-circuits to an empty
response; otherwise all tickers are prefetched (a `get_price` exception
becomes the route's 500, modelled as `Except.error`) and each portfolio is
aggregated. -/
def api_portfolios (up : Upstream) (cache : Cache) (config : List Portfolio)
    (now : ℚ) (nowUtc : Int) :
    Except String (List PortfolioOut) × Cache × List Query :=
  if config = [] then (.ok [], cache, [])
  else
    match prefetch up nowUtc (enum_tickers config) [] cache now with
    | (.error e, cache1, log) => (.error e, cache1, log)
    | (.ok quotes, cache1, log) =>
      (.ok (config.map (build_portfolio quotes nowUtc)), cache1, log)

/-! ## Predicates and concrete sample environments used by the theorems -/

/-- Every ticker in the response list of `/api/quote`. -/
def rowTickers (rows : List QuoteRow) : List String := rows.map QuoteRow.tickerOf

/-- The price the holdings loop of `api_portfolios` resolves for a holding:
`quotes.get(ticker, {}).get("price")`. -/
def resolvedPrice (quotes : List (String × QuoteVal)) (h : Holding) : Option ℚ :=
  (resolvedQuote quotes h.ticker).price

/-- A holding whose price resolved (contributes to the portfolio totals). -/
def priced (quotes : List (String × QuoteVal)) (h : Holding) : Bool :=
  (resolvedPrice quotes h).isSome

/-- An upstream whose history queries never raise (they may still return
empty series); `fast_info` is unconstrained. -/
def histNoRaise (up : Upstream) : Prop :=
  ∀ t p i e, up.history t p i ≠ HistOutcome.raise e

/-- Upstream with no historical data and a `last_price` of `None`. -/
def upEmpty : Upstream :=
  { history := fun _ _ _ => .series [], fastInfo := fun _ => .ok none }

/-- Upstream with no historical data whose snapshot endpoint raises. -/
def upFastRaise : Upstream :=
  { history := fun _ _ _ => .series [], fastInfo := fun _ => .raise "net" }

/-- Upstream with no historical data and a usable snapshot price. -/
def upFast42 : Upstream :=
  { history := fun _ _ _ => .series [], fastInfo := fun _ => .ok (some 42) }

/-- Upstream whose history queries raise. -/
def upRaise : Upstream :=
  { history := fun _ _ _ => .raise "boom", fastInfo := fun _ => .ok none }

/-- A single history row. -/
def obs1 : Obs := { close := 5, name := .aware 100 }

/-- Upstream for which every history query returns the one-row series
`[obs1]`. -/
def upTier1 : Upstream :=
  { history := fun _ _ _ => .series [obs1], fastInfo := fun _ => .ok none }

/-- Two portfolios sharing the ticker "QQQ". -/
def demoConfig : List Portfolio :=
  [⟨"A", "USD", [⟨some "QQQ", 10, 420⟩, ⟨some "NVDA", 2, 950⟩]⟩,
   ⟨"B", "CAD", [⟨some "QQQ", 1, 1⟩]⟩]

/-- A quotes dict resolving only "QQQ". -/
def quotes1 : List (String × QuoteVal) := [("QQQ", ⟨some 430, some "1m", some 5⟩)]

/-- A two-holding portfolio of which only "QQQ" resolves under `quotes1`. -/
def pf1 : Portfolio := ⟨"P", "USD", [⟨some "QQQ", 10, 420⟩, ⟨some "NVDA", 2, 950⟩]⟩

/-- A portfolio with no holdings (zero totals). -/
def pf0 : Portfolio := ⟨"Z", "USD", []⟩

/-! ## Helper lemmas -/

theorem dictGet_dictSet_self {α : Type} (d : List (String × α)) (k : String) (v : α) :
    dictGet (dictSet d k v) k = some v := by
  induction d with
  | nil => simp [dictGet, dictSet]
  | cons kv rest ih =>
    obtain ⟨k', v'⟩ := kv
    by_cases h : k' = k
    · simp [dictGet, dictSet, h]
    · simp [dictGet, dictSet, h, ih]

/-- If no history query raises, the tier loop never ends in `raised`. -/
theorem tier_loop_no_raised (up : Upstream) (ticker : String) (h : histNoRaise up) :
    ∀ tiers e log, tier_loop up ticker tiers ≠ .raised e log := by
  intro tiers
  induction tiers with
  | nil => intro e log; simp [tier_loop]
  | cons tier rest ih =>
    intro e log
    obtain ⟨period, interval⟩ := tier
    cases hh : up.history ticker period interval with
    | raise e' => exact absurd hh (h ticker period interval e')
    | series rows =>
      cases hl : rows.getLast? with
      | some last => simp [tier_loop, hist_try, hh, hl]
      | none =>
        cases ht : tier_loop up ticker rest with
        | raised e'' log'' => exact absurd ht (ih e'' log'')
        | found p i ts log'' => simp [tier_loop, hist_try, hh, hl, ht]
        | exhausted log'' => simp [tier_loop, hist_try, hh, hl, ht]

/-! ## Claim theorems -/

/-- C2: a `_cache_put` followed by a `_cache_get` strictly less than
`_CACHE_TTL = 10` seconds later (with no intervening put for that ticker)
returns exactly the stored quote fields; a get at or after TTL behaves
exactly like a get on a ticker never stored (returns `none`), even though the
stale entry is still physically present in the dict. -/
theorem cache_ttl_roundtrip (cache : Cache) (ticker : String) (p : Option ℚ)
    (i : Option String) (ts : Option Int) (tput tget : ℚ) :
    (tget - tput < CACHE_TTL →
      cache_get (cache_put cache ticker p i ts tput) ticker tget = some ⟨p, i, ts, tput⟩)
    ∧ (CACHE_TTL ≤ tget - tput →
      cache_get (cache_put cache ticker p i ts tput) ticker tget = none)
    ∧ (∀ c : Cache, dictGet c ticker = none → cache_get c ticker tget = none)
    ∧ dictGet (cache_put cache ticker p i ts tput) ticker = some ⟨p, i, ts, tput⟩ := by
  refine ⟨?_, ?_, ?_, ?_⟩
  · intro hfresh
    simp [cache_get, cache_put, dictGet_dictSet_self, hfresh]
  · intro hstale
    simp [cache_get, cache_put, dictGet_dictSet_self, not_lt.mpr hstale]
  · intro c hc
    simp [cache_get, hc]
  · exact dictGet_dictSet_self cache ticker ⟨p, i, ts, tput⟩

/-- Witness for C2 at concrete inputs: put at time 0, get at time 3 (fresh)
and at time 10 (exactly TTL: absent). -/
theorem cache_ttl_roundtrip_witness :
    cache_get (cache_put [] "QQQ" (some 5) (some "1m") (some 7) 0) "QQQ" 3 =
      some ⟨some 5, some "1m", some 7, 0⟩
    ∧ cache_get (cache_put [] "QQQ" (some 5) (some "1m") (some 7) 0) "QQQ" 10 = none :=
  ⟨(cache_ttl_roundtrip [] "QQQ" (some 5) (some "1m") (some 7) 0 3).1
      (by norm_num [CACHE_TTL]),
   (cache_ttl_roundtrip [] "QQQ" (some 5) (some "1m") (some 7) 0 10).2.1
      (by norm_num [CACHE_TTL])⟩

/-- C5: with no portfolios configured and no override ticker list, both
`/api/quote` and `/api/portfolios` return an empty list (HTTP 200), not an
error, touch no upstream, and leave the cache unchanged. -/
theorem empty_config_empty_response (up : Upstream) (cache : Cache)
    (now : ℚ) (nowUtc : Int) :
    api_quote up cache none [] now nowUtc = (.ok [], cache, [])
    ∧ api_portfolios up cache [] now nowUtc = (.ok [], cache, []) := by
  constructor
  · simp [api_quote, apiTickers, enum_tickers]
  · simp [api_portfolios]

/-- C1 counterexample: `get_price` is not exception-free — when the first
historical tier raises (here with message "boom"), no handler catches it and
the exception propagates out of `get_price` instead of being absorbed into
the no-data result.  (Only the `fast_info` tier sits inside a `try/except`.) -/
theorem get_price_raises_counterexample :
    (get_price upRaise [] "QQQ" 0 0).1 = Except.error "boom" := rfl

/-- C1 amended: `get_price` never raises *provided no historical tier
raises*: empty or data-less responses from every tier, and any exception
from the snapshot (`fast_info`) tier, are absorbed; only the historical-tier
fetches are outside the `try/except`, so only their exceptions propagate. -/
theorem get_price_never_raises_amended (up : Upstream) (h : histNoRaise up)
    (cache : Cache) (ticker : String) (now : ℚ) (nowUtc : Int) :
    ∃ v, (get_price up cache ticker now nowUtc).1 = Except.ok v := by
  unfold get_price
  cases hc : cache_get cache ticker now with
  | some c => exact ⟨(c.p, c.i, c.ts), rfl⟩
  | none =>
    cases ht : tier_loop up ticker TIERS with
    | raised e log => exact absurd ht (tier_loop_no_raised up ticker h TIERS e log)
    | found p i ts log => exact ⟨(some p, i, ts), rfl⟩
    | exhausted log =>
      cases hf : up.fastInfo ticker with
      | raise e => exact ⟨(none, none, none), rfl⟩
      | ok lastPrice =>
        cases lastPrice with
        | some p => exact ⟨(some p, some "fast_info", some nowUtc), rfl⟩
        | none => exact ⟨(none, none, none), rfl⟩

/-- Witness for amended C1: an upstream whose history is empty everywhere and
whose snapshot endpoint raises still yields an `ok` outcome. -/
theorem get_price_never_raises_amended_witness :
    ∃ v, (get_price upFastRaise [] "QQQ" 0 0).1 = Except.ok v :=
  get_price_never_raises_amended upFastRaise
    (by intro t p i e hcontra; simp [upFastRaise] at hcontra) [] "QQQ" 0 0

/-- C10: a fresh cache hit is effect-free beyond its return value —
`get_price` returns the cached fields verbatim, issues no upstream query and
performs no cache write; a stale entry is treated as absent by `_cache_get`
(a pure read) yet remains physically present, until the next `_cache_put`
for that ticker overwrites it. -/
theorem cache_hit_frame (up : Upstream) (cache : Cache) (ticker : String)
    (now : ℚ) (nowUtc : Int) :
    (∀ c, cache_get cache ticker now = some c →
      get_price up cache ticker now nowUtc = (.ok (c.p, c.i, c.ts), cache, []))
    ∧ (∀ e, dictGet cache ticker = some e → ¬ (now - e.t < CACHE_TTL) →
      cache_get cache ticker now = none ∧ dictGet cache ticker = some e)
    ∧ (∀ p i ts now2, dictGet (cache_put cache ticker p i ts now2) ticker =
      some ⟨p, i, ts, now2⟩) := by
  refine ⟨?_, ?_, ?_⟩
  · intro c hc
    simp [get_price, hc]
  · intro e he hstale
    exact ⟨by simp [cache_get, he, hstale], he⟩
  · intro p i ts now2
    exact dictGet_dictSet_self cache ticker ⟨p, i, ts, now2⟩

/-- Witness for C10: a fresh hit against an upstream that would raise if
queried — `get_price` still answers from the cache, untouched. -/
theorem cache_hit_frame_witness :
    get_price upRaise [("QQQ", ⟨some 7, some "1m", some 3, 0⟩)] "QQQ" 1 0 =
      (.ok (some 7, some "1m", some 3), [("QQQ", ⟨some 7, some "1m", some 3, 0⟩)], []) :=
  (cache_hit_frame upRaise [("QQQ", ⟨some 7, some "1m", some 3, 0⟩)] "QQQ" 1 0).1
    ⟨some 7, some "1m", some 3, 0⟩ (by norm_num [cache_get, dictGet, CACHE_TTL])

/-- C3: on a cache miss, the historical tiers are tried in the strict order
`("1d","1m")`, `("5d","1h")`, `("1mo","1d")` and the first tier with a
non-empty series wins immediately: `get_price` returns the last row's closing
price, the tier's interval identifier as source label, and the last row's
timestamp normalised to UTC — and the query log shows that no later tier and
no snapshot endpoint was queried. -/
theorem tier_order_first_wins (up : Upstream) (cache : Cache) (ticker : String)
    (now : ℚ) (nowUtc : Int) (hmiss : cache_get cache ticker now = none) :
    (∀ rows last, up.history ticker "1d" "1m" = .series rows →
      rows.getLast? = some last →
      get_price up cache ticker now nowUtc =
        (.ok (some last.close, some "1m", some (toUtcIso last.name)),
         cache_put cache ticker (some last.close) (some "1m")
           (some (toUtcIso last.name)) now,
         [Query.hist ticker "1d" "1m"]))
    ∧ (∀ rows last, up.history ticker "1d" "1m" = .series [] →
      up.history ticker "5d" "1h" = .series rows → rows.getLast? = some last →
      get_price up cache ticker now nowUtc =
        (.ok (some last.close, some "1h", some (toUtcIso last.name)),
         cache_put cache ticker (some last.close) (some "1h")
           (some (toUtcIso last.name)) now,
         [Query.hist ticker "1d" "1m", Query.hist ticker "5d" "1h"]))
    ∧ (∀ rows last, up.history ticker "1d" "1m" = .series [] →
      up.history ticker "5d" "1h" = .series [] →
      up.history ticker "1mo" "1d" = .series rows → rows.getLast? = some last →
      get_price up cache ticker now nowUtc =
        (.ok (some last.close, some "1d", some (toUtcIso last.name)),
         cache_put cache ticker (some last.close) (some "1d")
           (some (toUtcIso last.name)) now,
         [Query.hist ticker "1d" "1m", Query.hist ticker "5d" "1h",
          Query.hist ticker "1mo" "1d"])) := by
  refine ⟨?_, ?_, ?_⟩
  · intro rows last h1 hl
    simp [get_price, hmiss, TIERS, tier_loop, hist_try, h1, hl]
  · intro rows last h1 h2 hl
    simp [get_price, hmiss, TIERS, tier_loop, hist_try, h1, h2, hl]
  · intro rows last h1 h2 h3 hl
    simp [get_price, hmiss, TIERS, tier_loop, hist_try, h1, h2, h3, hl]

/-- Witness for C3: a first tier carrying the single row `obs1` answers
alone. -/
theorem tier_order_first_wins_witness :
    get_price upTier1 [] "QQQ" 0 0 =
      (.ok (some 5, some "1m", some 100),
       cache_put [] "QQQ" (some 5) (some "1m") (some 100) 0,
       [Query.hist "QQQ" "1d" "1m"]) :=
  (tier_order_first_wins upTier1 [] "QQQ" 0 0 rfl).1 [obs1] obs1 rfl rfl

/-- C4: when every historical tier returns an empty series, `get_price`
falls back to the snapshot endpoint: a usable last price `P` yields
`(P, "fast_info", current UTC time)`, cached; a snapshot with no usable
price, or one that raises, yields the cached no-data result
`(None, None, None)`. -/
theorem fallback_snapshot (up : Upstream) (cache : Cache) (ticker : String)
    (now : ℚ) (nowUtc : Int) (hmiss : cache_get cache ticker now = none)
    (h1 : up.history ticker "1d" "1m" = .series [])
    (h2 : up.history ticker "5d" "1h" = .series [])
    (h3 : up.history ticker "1mo" "1d" = .series []) :
    (∀ P, up.fastInfo ticker = .ok (some P) →
      get_price up cache ticker now nowUtc =
        (.ok (some P, some "fast_info", some nowUtc),
         cache_put cache ticker (some P) (some "fast_info") (some nowUtc) now,
         [Query.hist ticker "1d" "1m", Query.hist ticker "5d" "1h",
          Query.hist ticker "1mo" "1d", Query.fast ticker]))
    ∧ ((up.fastInfo ticker = .ok none ∨ ∃ e, up.fastInfo ticker = .raise e) →
      get_price up cache ticker now nowUtc =
        (.ok (none, none, none), cache_put cache ticker none none none now,
         [Query.hist ticker "1d" "1m", Query.hist ticker "5d" "1h",
          Query.hist ticker "1mo" "1d", Query.fast ticker])) := by
  constructor
  · intro P hf
    simp [get_price, hmiss, TIERS, tier_loop, hist_try, h1, h2, h3, hf]
  · rintro (hf | ⟨e, hf⟩) <;>
      simp [get_price, hmiss, TIERS, tier_loop, hist_try, h1, h2, h3, hf]

/-- Witness for C4, both branches: snapshot price 42, and a raising
snapshot. -/
theorem fallback_snapshot_witness :
    (get_price upFast42 [] "QQQ" 0 0).1 = .ok (some 42, some "fast_info", some 0)
    ∧ (get_price upFastRaise [] "QQQ" 0 0).1 = .ok (none, none, none) := by
  constructor
  · rw [(fallback_snapshot upFast42 [] "QQQ" 0 0 rfl rfl rfl rfl).1 42 rfl]
  · rw [(fallback_snapshot upFastRaise [] "QQQ" 0 0 rfl rfl rfl rfl).2
      (Or.inr ⟨"net", rfl⟩)]

/-- C6: a ticker that resolves to no-data is cached as such, and a second
`get_price` within the TTL window is answered from the cache — the second
call's upstream query log is empty and the cache is unchanged. -/
theorem nodata_rate_limit (up : Upstream) (cache : Cache) (ticker : String)
    (now now2 : ℚ) (nowUtc nowUtc2 : Int)
    (hmiss : cache_get cache ticker now = none)
    (h1 : up.history ticker "1d" "1m" = .series [])
    (h2 : up.history ticker "5d" "1h" = .series [])
    (h3 : up.history ticker "1mo" "1d" = .series [])
    (hf : up.fastInfo ticker = .ok none ∨ ∃ e, up.fastInfo ticker = .raise e)
    (hfresh : now2 - now < CACHE_TTL) :
    get_price up cache ticker now nowUtc =
      (.ok (none, none, none), cache_put cache ticker none none none now,
       [Query.hist ticker "1d" "1m", Query.hist ticker "5d" "1h",
        Query.hist ticker "1mo" "1d", Query.fast ticker])
    ∧ get_price up (cache_put cache ticker none none none now) ticker now2 nowUtc2 =
      (.ok (none, none, none), cache_put cache ticker none none none now, []) := by
  constructor
  · exact (fallback_snapshot up cache ticker now nowUtc hmiss h1 h2 h3).2 hf
  · have hhit : cache_get (cache_put cache ticker none none none now) ticker now2 =
        some ⟨none, none, none, now⟩ := by
      simp [cache_get, cache_put, dictGet_dictSet_self, hfresh]
    simp [get_price, hhit]

/-- Witness for C6: with an empty upstream, a fetch at time 0 and a lookup at
time 5 — the second call issues no upstream query. -/
theorem nodata_rate_limit_witness :
    get_price upEmpty [] "QQQ" 0 0 =
      (.ok (none, none, none), cache_put [] "QQQ" none none none 0,
       [Query.hist "QQQ" "1d" "1m", Query.hist "QQQ" "5d" "1h",
        Query.hist "QQQ" "1mo" "1d", Query.fast "QQQ"])
    ∧ get_price upEmpty (cache_put [] "QQQ" none none none 0) "QQQ" 5 7 =
      (.ok (none, none, none), cache_put [] "QQQ" none none none 0, []) :=
  nodata_rate_limit upEmpty [] "QQQ" 0 5 0 7 rfl rfl rfl rfl (Or.inl rfl)
    (by norm_num [CACHE_TTL])

theorem build_row_market_value (quotes : List (String × QuoteVal)) (h : Holding) :
    (build_row quotes h).market_value =
      (resolvedPrice quotes h).map (h.shares * ·) := by
  cases hp : (resolvedQuote quotes h.ticker).price <;>
    simp [build_row, resolvedPrice, hp]

/-- Closed form of the holdings loop: the output rows are `build_row` of each
holding in order, and the totals accumulate `position_cost` and
`position_value` over exactly the holdings whose price resolved. -/
theorem pf_loop_spec (quotes : List (String × QuoteVal)) (hs : List Holding)
    (outs : List HoldingOut) (tc tv : ℚ) :
    pf_loop quotes hs (outs, tc, tv) =
      (outs ++ hs.map (build_row quotes),
       tc + ((hs.filter (priced quotes)).map fun h => h.shares * h.avg_cost).sum,
       tv + ((hs.filter (priced quotes)).map fun h =>
         h.shares * (resolvedPrice quotes h).getD 0).sum) := by
  induction hs generalizing outs tc tv with
  | nil => simp [pf_loop]
  | cons h rest ih =>
    cases hp : resolvedPrice quotes h with
    | none =>
      have hmv : (build_row quotes h).market_value = none := by
        rw [build_row_market_value, hp]; rfl
      have hpr : priced quotes h = false := by simp [priced, hp]
      simp only [pf_loop, hmv, ih, List.filter_cons, hpr, Bool.false_eq_true,
        if_false, List.map_cons, List.append_assoc, List.singleton_append,
        Prod.mk.injEq]
    | some p =>
      have hmv : (build_row quotes h).market_value = some (h.shares * p) := by
        rw [build_row_market_value, hp]; rfl
      have hpr : priced quotes h = true := by simp [priced, hp]
      simp only [pf_loop, hmv, ih, List.filter_cons, hpr, if_true,
        List.map_cons, List.sum_cons, List.append_assoc, List.singleton_append, hp,
        Option.getD_some, Prod.mk.injEq]
      exact ⟨trivial, by ring, by ring⟩

/-- C7: in the portfolio aggregation, a holding whose price did not resolve
gets `market_value = pl = pl_pct = None`, and the portfolio totals sum
`shares * avg_cost` (cost) and `shares * price` (value) over exactly the
holdings whose price resolved — an unpriced holding contributes to
neither total.  The output rows are `build_row` of the holdings, in order. -/
theorem unpriced_holding_aggregation (quotes : List (String × QuoteVal))
    (nowUtc : Int) (pf : Portfolio) :
    (build_portfolio quotes nowUtc pf).holdings = pf.holdings.map (build_row quotes)
    ∧ (∀ h : Holding, resolvedPrice quotes h = none →
      (build_row quotes h).market_value = none ∧ (build_row quotes h).pl = none
      ∧ (build_row quotes h).pl_pct = none)
    ∧ (build_portfolio quotes nowUtc pf).totals.cost =
      ((pf.holdings.filter (priced quotes)).map fun h => h.shares * h.avg_cost).sum
    ∧ (build_portfolio quotes nowUtc pf).totals.value =
      ((pf.holdings.filter (priced quotes)).map fun h =>
        h.shares * (resolvedPrice quotes h).getD 0).sum := by
  have hhold : (build_portfolio quotes nowUtc pf).holdings =
      (pf_loop quotes pf.holdings ([], 0, 0)).1 := rfl
  have hcost : (build_portfolio quotes nowUtc pf).totals.cost =
      (pf_loop quotes pf.holdings ([], 0, 0)).2.1 := rfl
  have hval : (build_portfolio quotes nowUtc pf).totals.value =
      (pf_loop quotes pf.holdings ([], 0, 0)).2.2 := rfl
  refine ⟨?_, ?_, ?_, ?_⟩
  · rw [hhold, pf_loop_spec]; simp
  · intro h hp
    have hq : (resolvedQuote quotes h.ticker).price = none := hp
    refine ⟨?_, ?_, ?_⟩ <;> simp [build_row, hq]
  · rw [hcost, pf_loop_spec]; simp
  · rw [hval, pf_loop_spec]; simp

/-- Witness for C7: under `quotes1` (only "QQQ" resolves, at 430), the NVDA
row of `pf1` is all-`None` and the totals count only the QQQ position:
cost 4200, value 4300. -/
theorem unpriced_holding_aggregation_witness :
    ((build_row quotes1 ⟨some "NVDA", 2, 950⟩).market_value = none
      ∧ (build_row quotes1 ⟨some "NVDA", 2, 950⟩).pl = none
      ∧ (build_row quotes1 ⟨some "NVDA", 2, 950⟩).pl_pct = none)
    ∧ (build_portfolio quotes1 0 pf1).totals.cost = 4200
    ∧ (build_portfolio quotes1 0 pf1).totals.value = 4300 := by
  refine ⟨(unpriced_holding_aggregation quotes1 0 pf1).2.1 ⟨some "NVDA", 2, 950⟩ rfl,
    ?_, ?_⟩
  · rw [(unpriced_holding_aggregation quotes1 0 pf1).2.2.1]
    simp [pf1, quotes1, priced, resolvedPrice, resolvedQuote, dictGet,
      List.filter_cons]
    norm_num
  · rw [(unpriced_holding_aggregation quotes1 0 pf1).2.2.2]
    simp [pf1, quotes1, priced, resolvedPrice, resolvedQuote, dictGet,
      List.filter_cons]
    norm_num

theorem totals_calc_nonpos (tc tv : ℚ) (h : tc ≤ 0) : (totals_calc tc tv).2 = none := by
  unfold totals_calc
  by_cases h0 : tc = 0 ∧ tv = 0
  · rw [if_pos h0]
  · rw [if_neg h0]
    simp [not_lt.mpr h]

theorem totals_calc_zero : totals_calc 0 0 = (0, none) := by
  simp [totals_calc]

/-- C9: every profit-and-loss percentage is guarded by a strictly positive
cost: a holding's `pl_pct` is `None` whenever `shares * avg_cost ≤ 0` (even
with a resolved price), and is only ever computed with a positive
denominator; a portfolio's `totals.pl_pct` is `None` whenever
`totals.cost ≤ 0`; zero cost and zero value give `totals.pl = 0` with
`totals.pl_pct = None`.  Hence no division by zero is performed. -/
theorem pl_pct_positive_cost_guard (quotes : List (String × QuoteVal))
    (nowUtc : Int) (pf : Portfolio) :
    (∀ h : Holding, h.shares * h.avg_cost ≤ 0 → (build_row quotes h).pl_pct = none)
    ∧ (∀ h : Holding, ∀ v, (build_row quotes h).pl_pct = some v →
      0 < h.shares * h.avg_cost)
    ∧ ((build_portfolio quotes nowUtc pf).totals.cost ≤ 0 →
      (build_portfolio quotes nowUtc pf).totals.pl_pct = none)
    ∧ ((build_portfolio quotes nowUtc pf).totals.cost = 0 →
      (build_portfolio quotes nowUtc pf).totals.value = 0 →
      (build_portfolio quotes nowUtc pf).totals.pl = 0
      ∧ (build_portfolio quotes nowUtc pf).totals.pl_pct = none) := by
  have hpl : (build_portfolio quotes nowUtc pf).totals.pl =
      (totals_calc (build_portfolio quotes nowUtc pf).totals.cost
        (build_portfolio quotes nowUtc pf).totals.value).1 := rfl
  have hpct : (build_portfolio quotes nowUtc pf).totals.pl_pct =
      (totals_calc (build_portfolio quotes nowUtc pf).totals.cost
        (build_portfolio quotes nowUtc pf).totals.value).2 := rfl
  have hrow : ∀ h : Holding, ∀ v, (build_row quotes h).pl_pct = some v →
      0 < h.shares * h.avg_cost := by
    intro h v hv
    by_contra hle
    have hnone : (build_row quotes h).pl_pct = none := by
      cases hp : (resolvedQuote quotes h.ticker).price <;>
        simp [build_row, hp, hle]
    rw [hnone] at hv
    exact Option.noConfusion hv
  refine ⟨?_, hrow, ?_, ?_⟩
  · intro h hle
    cases hv : (build_row quotes h).pl_pct with
    | none => rfl
    | some v => exact absurd (hrow h v hv) (not_lt.mpr hle)
  · intro hle
    rw [hpct, totals_calc_nonpos _ _ hle]
  · intro hc hv
    rw [hpl, hpct, hc, hv, totals_calc_zero]
    exact ⟨rfl, rfl⟩

/-- Witness for C9: a zero-cost holding with a resolved price has
`pl_pct = None`, and an empty portfolio has `pl = 0`, `pl_pct = None`. -/
theorem pl_pct_positive_cost_guard_witness :
    (build_row quotes1 ⟨some "QQQ", 0, 0⟩).pl_pct = none
    ∧ (build_portfolio quotes1 0 pf0).totals.pl = 0
    ∧ (build_portfolio quotes1 0 pf0).totals.pl_pct = none := by
  refine ⟨(pl_pct_positive_cost_guard quotes1 0 pf0).1 ⟨some "QQQ", 0, 0⟩ (by norm_num),
    ?_, ?_⟩
  · exact ((pl_pct_positive_cost_guard quotes1 0 pf0).2.2.2 rfl rfl).1
  · exact ((pl_pct_positive_cost_guard quotes1 0 pf0).2.2.2 rfl rfl).2

/-- The response rows of a successful `quote_loop` carry the requested
tickers, in request order, one row per requested ticker. -/
theorem quote_loop_tickers (up : Upstream) (nowUtc : Int) :
    ∀ (tickers : List String) (cache : Cache) (now : ℚ) rows cache2 log,
      quote_loop up nowUtc tickers cache now = (.ok rows, cache2, log) →
      rowTickers rows = tickers := by
  intro tickers
  induction tickers with
  | nil =>
    intro cache now rows cache2 log h
    simp only [quote_loop, Prod.mk.injEq, Except.ok.injEq] at h
    rw [← h.1]
    rfl
  | cons t rest ih =>
    intro cache now rows cache2 log h
    rcases hg : get_price up cache t now nowUtc with ⟨res, cache1, log1⟩
    cases res with
    | error e => simp [quote_loop, hg] at h
    | ok v =>
      obtain ⟨p, i, ts⟩ := v
      rcases hq : quote_loop up nowUtc rest cache1 now with ⟨res2, cache3, log3⟩
      cases res2 with
      | error e =>
        cases p <;> simp [quote_loop, hg, hq, Except.map] at h
      | ok rows2 =>
        cases p with
        | none =>
          simp only [quote_loop, hg, hq, Except.map, Prod.mk.injEq,
            Except.ok.injEq] at h
          rw [← h.1]
          simpa [rowTickers, QuoteRow.tickerOf] using
            ih cache1 now rows2 cache3 log3 hq
        | some price =>
          simp only [quote_loop, hg, hq, Except.map, Prod.mk.injEq,
            Except.ok.injEq] at h
          rw [← h.1]
          simpa [rowTickers, QuoteRow.tickerOf] using
            ih cache1 now rows2 cache3 log3 hq

theorem add_ticker_nodup (acc : List String) (h : Holding) (hnd : acc.Nodup) :
    (add_ticker acc h).Nodup := by
  cases ht : h.ticker with
  | none => simpa [add_ticker, ht] using hnd
  | some t =>
    by_cases hc : t ≠ "" ∧ t ∉ acc
    · simp only [add_ticker, ht, if_pos hc]
      simp [List.nodup_append, hnd, hc.2]
    · simp only [add_ticker, ht, if_neg hc]
      exact hnd

theorem foldl_add_ticker_nodup (hs : List Holding) :
    ∀ acc : List String, acc.Nodup → (hs.foldl add_ticker acc).Nodup := by
  induction hs with
  | nil => intro acc h; exact h
  | cons h rest ih => intro acc hnd; exact ih _ (add_ticker_nodup acc h hnd)

/-- The portfolio-derived ticker enumeration never repeats a ticker. -/
theorem enum_tickers_nodup (pfs : List Portfolio) : (enum_tickers pfs).Nodup := by
  suffices h : ∀ acc : List String, acc.Nodup →
      (pfs.foldl (fun acc pf => pf.holdings.foldl add_ticker acc) acc).Nodup by
    exact h [] List.nodup_nil
  induction pfs with
  | nil => intro acc h; exact h
  | cons pf rest ih =>
    intro acc hnd
    exact ih _ (foldl_add_ticker_nodup pf.holdings acc hnd)

/-- C8 counterexample: the override ticker list is *not* de-duplicated — the
request `?tickers=QQQ,QQQ` produces two response rows for the same ticker
"QQQ", so a distinct ticker does not appear exactly once in the response. -/
theorem override_dup_counterexample :
    (api_quote upTier1 [] (some "QQQ,QQQ") [] 0 0).1 =
      .ok [QuoteRow.okRow "QQQ" 5 (some "1m") (some 100),
           QuoteRow.okRow "QQQ" 5 (some "1m") (some 100)]
    ∧ (rowTickers [QuoteRow.okRow "QQQ" 5 (some "1m") (some 100),
        QuoteRow.okRow "QQQ" 5 (some "1m") (some 100)]).count "QQQ" = 2 := by
  have hat : apiTickers (some "QQQ,QQQ") [] = ["QQQ", "QQQ"] := rfl
  have hg1 : get_price upTier1 [] "QQQ" 0 0 =
      (.ok (some 5, some "1m", some 100),
       [("QQQ", ⟨some 5, some "1m", some 100, 0⟩)],
       [Query.hist "QQQ" "1d" "1m"]) := rfl
  have hhit : cache_get [("QQQ", ⟨some 5, some "1m", some 100, 0⟩)] "QQQ" 0 =
      some ⟨some 5, some "1m", some 100, 0⟩ := by
    norm_num [cache_get, dictGet, CACHE_TTL]
  have hg2 : get_price upTier1 [("QQQ", ⟨some 5, some "1m", some 100, 0⟩)] "QQQ" 0 0 =
      (.ok (some 5, some "1m", some 100),
       [("QQQ", ⟨some 5, some "1m", some 100, 0⟩)], []) := by
    simp [get_price, hhit]
  have hql : quote_loop upTier1 0 ["QQQ", "QQQ"] [] 0 =
      (.ok [QuoteRow.okRow "QQQ" 5 (some "1m") (some 100),
            QuoteRow.okRow "QQQ" 5 (some "1m") (some 100)],
       [("QQQ", ⟨some 5, some "1m", some 100, 0⟩)],
       [Query.hist "QQQ" "1d" "1m"]) := by
    simp [quote_loop, hg1, hg2, Except.map]
  have happ : api_quote upTier1 [] (some "QQQ,QQQ") [] 0 0 =
      quote_loop upTier1 0 ["QQQ", "QQQ"] [] 0 := by
    unfold api_quote
    rw [hat]
    simp
  constructor
  · rw [happ, hql]
  · rfl

/-- C8 amended: within one batch response the row order matches the order in
which tickers were enumerated (override order, or first-occurrence order
across portfolios' holdings), and the *portfolio-derived* enumeration is
de-duplicated; the override list, however, is used exactly as parsed
(stripped, blanks dropped), with duplicates preserved. -/
theorem batch_order_amended (up : Upstream) (cache : Cache) (config : List Portfolio)
    (now : ℚ) (nowUtc : Int) :
    (enum_tickers config).Nodup
    ∧ (∀ rows cache2 log,
      api_quote up cache none config now nowUtc = (.ok rows, cache2, log) →
      rowTickers rows = enum_tickers config)
    ∧ (∀ s rows cache2 log, s ≠ "" →
      api_quote up cache (some s) config now nowUtc = (.ok rows, cache2, log) →
      rowTickers rows = parse_override s) := by
  refine ⟨enum_tickers_nodup config, ?_, ?_⟩
  · intro rows cache2 log h
    have hat : apiTickers none config = enum_tickers config := rfl
    unfold api_quote at h
    rw [hat] at h
    by_cases he : enum_tickers config = []
    · rw [he, if_pos rfl] at h
      rw [he]
      simp only [Prod.mk.injEq, Except.ok.injEq] at h
      rw [← h.1]
      rfl
    · rw [if_neg he] at h
      exact quote_loop_tickers up nowUtc _ cache now rows cache2 log h
  · intro s rows cache2 log hs h
    have hat : apiTickers (some s) config = parse_override s := by
      simp [apiTickers, hs]
    unfold api_quote at h
    rw [hat] at h
    by_cases he : parse_override s = []
    · rw [he, if_pos rfl] at h
      rw [he]
      simp only [Prod.mk.injEq, Except.ok.injEq] at h
      rw [← h.1]
      rfl
    · rw [if_neg he] at h
      exact quote_loop_tickers up nowUtc _ cache now rows cache2 log h

/-- Witness for amended C8: the response for `demoConfig` (three holdings,
"QQQ" held in both portfolios) lists each distinct ticker once, in
first-occurrence order. -/
theorem batch_order_amended_witness :
    rowTickers [QuoteRow.okRow "QQQ" 5 (some "1m") (some 100),
      QuoteRow.okRow "NVDA" 5 (some "1m") (some 100)] = enum_tickers demoConfig
    ∧ (enum_tickers demoConfig).Nodup :=
  ⟨(batch_order_amended upTier1 [] demoConfig 0 0).2.1 _ _ _ rfl,
   (batch_order_amended upTier1 [] demoConfig 0 0).1⟩
